import Mathlib

/-!
ZKS-AUTH TOTP core: shallow embedding and verification

This file embeds the TOTP core of `src/totp.js` (class `TOTP`) into Lean:
Base32 decoding, the from-scratch SHA-1 engine `sha1Simple`, the HMAC-SHA1
fallback `hmacSha1Simple`, dynamic truncation, secret validation and the
`generate` / `getRemainingSeconds` entry points.

Bytes and 32-bit words are modelled as `Nat`, with wraparound written as
`% 2^32` where the JavaScript source relies on `>>> 0` / `ToUint32`.
JavaScript strings are modelled as `List Char`; `String.prototype.toUpperCase`
is modelled character-wise on the ASCII range (the only range the secrets and
claims exercise).

A crucial point of fidelity: the JavaScript shift operators `>>`, `>>>`, `<<`
reduce their right operand modulo 32 (ECMA-262 ToUint32 & 0x1F).  The source's
length-padding loop `(msgLength >>> (56 - i * 8)) & 0xFF` therefore does not
produce a 64-bit big-endian length: shift counts 56, 48, 40, 32 collapse to
24, 16, 8, 0, so the 32-bit bit length is written twice.  The embedding keeps
this behaviour (`jsShrU`), and a separate RFC-faithful reference SHA-1 /
HMAC-SHA1 modelled from the specification is used to compare.
-/

namespace ZKSAuth

/-- The JavaScript unsigned 32-bit modulus 2^32. -/
def mod32 : Nat := 4294967296

/-- JavaScript `x >>> s` on an unsigned 32-bit pattern: the left operand is
reduced to its low 32 bits and the shift count modulo 32 (ECMA-262). -/
def jsShrU (n s : Nat) : Nat := (n % mod32) >>> (s % 32)

/-- Embeds `rotateLeft` from the source: `((n << c) | (n >>> (32 - c))) >>> 0`,
on a value already reduced below 2^32, with `1 ≤ c ≤ 31`. -/
def rotateLeft (n c : Nat) : Nat := ((n <<< c) ||| (n >>> (32 - c))) % mod32

/-- Bitwise complement of a 32-bit pattern (JavaScript `~b` seen as bits). -/
def bnot32 (b : Nat) : Nat := b ^^^ (mod32 - 1)

/-- The SHA-1 round function `f` for round `i` (source lines 244-256). -/
def sha1F (i b c d : Nat) : Nat :=
  if i < 20 then (b &&& c) ||| (bnot32 b &&& d)
  else if i < 40 then b ^^^ c ^^^ d
  else if i < 60 then (b &&& c) ||| (b &&& d) ||| (c &&& d)
  else b ^^^ c ^^^ d

/-- The SHA-1 round constant `k` for round `i` (source lines 244-256). -/
def sha1K (i : Nat) : Nat :=
  if i < 20 then 0x5A827999
  else if i < 40 then 0x6ED9EBA1
  else if i < 60 then 0x8F1BBCDC
  else 0xCA62C1D6

/-- The zero-padding length in the source's preprocessing:
`(64 - (data.length + 1 + 8) % 64) % 64`. -/
def sha1PadZeros (len : Nat) : Nat := (64 - (len + 1 + 8) % 64) % 64

/-- The 8 length bytes the source writes (lines 216-219):
`paddedData[end - 8 + i] = (msgLength >>> (56 - i*8)) & 0xFF`.
Because JavaScript reduces shift counts modulo 32, the effective shifts are
24, 16, 8, 0, 24, 16, 8, 0: the 32-bit bit length appears twice. -/
def sha1LengthBytes (msgLength : Nat) : List Nat :=
  (List.range 8).map (fun i => jsShrU msgLength (56 - i * 8) &&& 0xFF)

/-- The padded message the source builds (lines 210-219). -/
def sha1Padded (data : List Nat) : List Nat :=
  data ++ [0x80] ++ List.replicate (sha1PadZeros data.length) 0
       ++ sha1LengthBytes (data.length * 8)

/-- One big-endian 32-bit word from four bytes (source lines 226-231). -/
def wordOfBytes (b0 b1 b2 b3 : Nat) : Nat :=
  (b0 <<< 24) ||| (b1 <<< 16) ||| (b2 <<< 8) ||| b3

/-- The sixteen initial 32-bit words of one 64-byte chunk. -/
def chunkWords (chunk : List Nat) : List Nat :=
  (List.range 16).map (fun i =>
    wordOfBytes (chunk.getD (i * 4) 0) (chunk.getD (i * 4 + 1) 0)
                (chunk.getD (i * 4 + 2) 0) (chunk.getD (i * 4 + 3) 0))

/-- Extend the word schedule by `n` further words
(`w[i] = rotl(w[i-3] ^ w[i-8] ^ w[i-14] ^ w[i-16], 1)`, source line 235). -/
def extendWords (ws : List Nat) : Nat → List Nat
  | 0 => ws
  | n + 1 =>
    let l := ws.length
    extendWords (ws ++ [rotateLeft
      (ws.getD (l - 3) 0 ^^^ ws.getD (l - 8) 0 ^^^
       ws.getD (l - 14) 0 ^^^ ws.getD (l - 16) 0) 1]) n

/-- The full 80-word schedule of one chunk. -/
def sha1Schedule (chunk : List Nat) : List Nat :=
  extendWords (chunkWords chunk) 64

/-- The five-word SHA-1 state. -/
structure Sha1State where
  h0 : Nat
  h1 : Nat
  h2 : Nat
  h3 : Nat
  h4 : Nat
deriving DecidableEq, Repr

/-- Initial hash values (source lines 204-208). -/
def sha1Init : Sha1State :=
  ⟨0x67452301, 0xEFCDAB89, 0x98BADCFE, 0x10325476, 0xC3D2E1F0⟩

/-- One round of the main loop: `temp = (rotl(a,5) + f + e + k + w[i]) >>> 0`
and the rotation of the working variables (source lines 258-263). -/
def sha1Round (st : Sha1State) (iw : Nat × Nat) : Sha1State :=
  let a := st.h0; let b := st.h1; let c := st.h2; let d := st.h3; let e := st.h4
  let temp := (rotateLeft a 5 + sha1F iw.1 b c d + e + sha1K iw.1 + iw.2) % mod32
  ⟨temp, a, rotateLeft b 30, c, d⟩

/-- Process one 64-byte chunk: run 80 rounds and add the working variables
into the state with 32-bit wraparound (source lines 239-271). -/
def sha1Chunk (st : Sha1State) (chunk : List Nat) : Sha1State :=
  let f := (sha1Schedule chunk).enum.foldl sha1Round st
  ⟨(st.h0 + f.h0) % mod32, (st.h1 + f.h1) % mod32, (st.h2 + f.h2) % mod32,
   (st.h3 + f.h3) % mod32, (st.h4 + f.h4) % mod32⟩

/-- Split a byte list into 64-byte chunks, with enough fuel to consume the
whole list (the source loop at line 222 advances 64 bytes per iteration). -/
def chunks64Go : Nat → List Nat → List (List Nat)
  | _, [] => []
  | 0, _ :: _ => []
  | fuel + 1, l => l.take 64 :: chunks64Go fuel (l.drop 64)

/-- Split a byte list into 64-byte chunks (source loop at line 222). -/
def chunks64 (l : List Nat) : List (List Nat) := chunks64Go l.length l

/-- Serialize the five state words to 20 big-endian bytes (lines 275-281). -/
def sha1Output (st : Sha1State) : List Nat :=
  [st.h0, st.h1, st.h2, st.h3, st.h4].flatMap (fun h =>
    [(h >>> 24) &&& 0xFF, (h >>> 16) &&& 0xFF, (h >>> 8) &&& 0xFF, h &&& 0xFF])

/-- Embeds `TOTP.sha1Simple` (source lines 202-284), including the faithful
length-byte behaviour of `sha1LengthBytes`. -/
def sha1Simple (data : List Nat) : List Nat :=
  sha1Output ((chunks64 (sha1Padded data)).foldl sha1Chunk sha1Init)

/-- Modelled from the spec (§4.3, RFC 3174): the reference preprocessing
appends `0x80`, zero-pads so total length ≡ 56 mod 64, then appends the
original bit length as a genuine 64-bit big-endian integer.  This is the
independent reference the source's `sha1Simple` is compared against; only the
length field differs from `sha1Padded`. -/
def sha1PaddedRef (data : List Nat) : List Nat :=
  data ++ [0x80] ++ List.replicate (sha1PadZeros data.length) 0
       ++ (List.range 8).map (fun i => ((data.length * 8) >>> (56 - i * 8)) &&& 0xFF)

/-- Modelled from the spec (§4.3): reference SHA-1, sharing the standard
compression function with the embedding (the source's compression is the
standard one; only preprocessing differs). -/
def sha1Ref (data : List Nat) : List Nat :=
  sha1Output ((chunks64 (sha1PaddedRef data)).foldl sha1Chunk sha1Init)

/-- Embeds `TOTP.hmacSha1Simple` (source lines 163-196): the from-scratch fallback
HMAC-SHA1 built on `sha1Simple`. -/
def hmacSha1Simple (key message : List Nat) : List Nat :=
  let key := if 64 < key.length then sha1Simple key else key
  let paddedKey := key ++ List.replicate (64 - key.length) 0
  let innerPad := paddedKey.map (fun b => b ^^^ 0x36)
  let outerPad := paddedKey.map (fun b => b ^^^ 0x5c)
  sha1Simple (outerPad ++ sha1Simple (innerPad ++ message))

/-- Modelled from the spec (§4.4, RFC 2104): the reference HMAC-SHA1, the
same construction over the reference `sha1Ref`. -/
def hmacSha1Ref (key message : List Nat) : List Nat :=
  let key := if 64 < key.length then sha1Ref key else key
  let paddedKey := key ++ List.replicate (64 - key.length) 0
  let innerPad := paddedKey.map (fun b => b ^^^ 0x36)
  let outerPad := paddedKey.map (fun b => b ^^^ 0x5c)
  sha1Ref (outerPad ++ sha1Ref (innerPad ++ message))

/-- The Base32 alphabet of the source (line 94). -/
def base32Chars : List Char := "ABCDEFGHIJKLMNOPQRSTUVWXYZ234567".toList

/-- Character-wise model of `String.prototype.toUpperCase` on the ASCII
range: lowercase letters map to uppercase, everything else is unchanged. -/
def jsToUpper (c : Char) : Char :=
  if 'a' ≤ c ∧ c ≤ 'z' then Char.ofNat (c.toNat - 32) else c

/-- The characters removed by `replace(/[\s\-]/g, '')`: ASCII whitespace
(space, tab, LF, VT, FF, CR) and the dash. -/
def jsIsSpaceOrDash (c : Char) : Bool :=
  c = ' ' || c = '\t' || c = '\n' || c = Char.ofNat 11 || c = Char.ofNat 12 ||
  c = '\r' || c = '-'

/-- The secret normalization shared by `generate` (lines 29-33) and
`validateSecret` (lines 79-81): strip whitespace and dashes, uppercase, then
substitute `0`→`O` and `1`→`I`. -/
def cleanSecret (s : List Char) : List Char :=
  ((s.filter (fun c => ¬ jsIsSpaceOrDash c)).map jsToUpper).map
    (fun c => if c = '0' then 'O' else if c = '1' then 'I' else c)

/-- Membership in the character class `[A-Z2-7=]` of the validation regex. -/
def isB32Valid (c : Char) : Bool :=
  ('A' ≤ c && c ≤ 'Z') || ('2' ≤ c && c ≤ '7') || c = '='

/-- Embeds `TOTP.validateSecret` (source lines 77-87):
`/^[A-Z2-7=]+$/.test(cleaned) && cleaned.length >= 16`. -/
def validateSecret (s : List Char) : Bool :=
  let cleaned := cleanSecret s
  (!cleaned.isEmpty && cleaned.all isB32Valid) && 16 ≤ cleaned.length

/-- Index of a character in the Base32 alphabet, `none` when absent
(the source's `indexOf === -1` check, lines 103-106). -/
def base32Index (c : Char) : Option Nat :=
  let i := base32Chars.indexOf c
  if i = base32Chars.length then none else some i

/-- The five bits of a 5-bit index, most significant first
(`index.toString(2).padStart(5, '0')`, line 107). -/
def toBits5 (n : Nat) : List Nat :=
  [n / 16 % 2, n / 8 % 2, n / 4 % 2, n / 2 % 2, n % 2]

/-- Slice a bit list into 8-bit groups from the front, dropping a trailing
group shorter than 8 bits (the `i + 8 <= bits.length` loop, lines 112-115). -/
def bitsToBytes : List Nat → List Nat
  | b0 :: b1 :: b2 :: b3 :: b4 :: b5 :: b6 :: b7 :: rest =>
    (b0 * 128 + b1 * 64 + b2 * 32 + b3 * 16 + b4 * 8 + b5 * 4 + b6 * 2 + b7)
      :: bitsToBytes rest
  | _ => []

/-- Embeds `TOTP.base32Decode` (source lines 93-118): strip `=`, uppercase, map each
character to its 5-bit index (failing on a character outside the alphabet),
concatenate the bits and slice into full bytes.  `none` models the thrown
`Invalid base32 character` error. -/
def base32Decode (encoded : List Char) : Option (List Nat) :=
  (((encoded.filter (fun c => c ≠ '=')).map jsToUpper).mapM base32Index).map
    (fun idxs => bitsToBytes (idxs.flatMap toBits5))

/-- Embeds `TOTP.intToBytes` (source lines 124-131): 8-byte big-endian encoding. -/
def intToBytes (n : Nat) : List Nat :=
  (List.range 8).map (fun i => n / 256 ^ (7 - i) % 256)

/-- The configured number of code digits (`this.codeDigits`, line 9). -/
def codeDigits : Nat := 6

/-- The configured time step in seconds (`this.timeStep`, line 8). -/
def timeStep : Nat := 30

/-- Embeds `TOTP.dynamicTruncate` (source lines 309-317): RFC 4226 dynamic
truncation of a 20-byte HMAC digest, reduced modulo 10^6. -/
def dynamicTruncate (hmac : List Nat) : Nat :=
  let offset := hmac.getD (hmac.length - 1) 0 &&& 0x0F
  let code := ((hmac.getD offset 0 &&& 0x7F) <<< 24) |||
              ((hmac.getD (offset + 1) 0 &&& 0xFF) <<< 16) |||
              ((hmac.getD (offset + 2) 0 &&& 0xFF) <<< 8) |||
              (hmac.getD (offset + 3) 0 &&& 0xFF)
  code % 10 ^ codeDigits

/-- The ASCII character of a decimal digit. -/
def digitChar (n : Nat) : Char := Char.ofNat (48 + n)

/-- Decimal digits of `n`, most significant first, with enough fuel
(dividing by 10 each step). -/
def natToDecimalGo : Nat → Nat → List Char
  | 0, _ => []
  | fuel + 1, n =>
    if n < 10 then [digitChar n]
    else natToDecimalGo fuel (n / 10) ++ [digitChar (n % 10)]

/-- Decimal representation of a natural number, the model of JavaScript
`String(code)` for a non-negative integer. -/
def natToDecimal (n : Nat) : List Char := natToDecimalGo (n + 1) n

/-- Embeds `padStart(width, "0")` from JavaScript strings. -/
def padStartZero (s : List Char) (width : Nat) : List Char :=
  List.replicate (width - s.length) '0' ++ s

/-- Embeds `TOTP.generate` (source lines 18-61) with the clock reading supplied as
the `time` parameter (the source defaults it to `Date.now()/1000`): derive
the counter, normalize and Base32-decode the secret, HMAC, truncate, and
zero-pad to 6 digits.  The decoder's error is caught by the source's
`try/catch`, which returns the fixed string `'ERROR'`. -/
def generate (secret : List Char) (time : Nat) : List Char :=
  let counter := time / timeStep
  match base32Decode (cleanSecret secret) with
  | none => "ERROR".toList
  | some key =>
      padStartZero (natToDecimal (dynamicTruncate
        (hmacSha1Simple key (intToBytes counter)))) codeDigits

/-- Modelled from the spec (§4.3-§4.6): the reference TOTP pipeline using the
RFC-faithful `hmacSha1Ref` in place of the fallback engine; decoding,
counter encoding and truncation are the undisputed parts, shared with the
embedding. -/
def generateRef (secret : List Char) (time : Nat) : List Char :=
  let counter := time / timeStep
  match base32Decode (cleanSecret secret) with
  | none => "ERROR".toList
  | some key =>
      padStartZero (natToDecimal (dynamicTruncate
        (hmacSha1Ref key (intToBytes counter)))) codeDigits

/-- Embeds `TOTP.getRemainingSeconds` (source lines 67-70) with the clock reading
supplied as the `now` parameter (the source computes it from `Date.now()`;
the method takes no caller argument). -/
def getRemainingSeconds (now : Nat) : Nat :=
  timeStep - now % timeStep

/-- A call `getRemainingSeconds(t)` at clock time `now`: JavaScript ignores
arguments passed to a function declared with none, so the result depends only
on the clock. -/
def getRemainingSecondsCalled (now _t : Nat) : Nat :=
  getRemainingSeconds now

/-- A valid TOTP code: exactly six ASCII decimal digits (`^[0-9]{6}$`). -/
def isSixDigitCode (s : List Char) : Bool :=
  s.length = 6 && s.all (fun c => '0' ≤ c && c ≤ '9')

end ZKSAuth

namespace ZKSAuth

set_option maxRecDepth 1000000

/-! Helper lemmas about characters, the Base32 alphabet, `Option.mapM`,
bit slicing and decimal formatting. -/

/-- Character order agrees with code-point order. -/
lemma char_le_iff {a b : Char} : a ≤ b ↔ a.toNat ≤ b.toNat := by
  rw [Char.le_def, UInt32.le_def, BitVec.le_def]
  rfl

/-- Characters with code points in `A`-`Z` or `2`-`7` are in the alphabet. -/
lemma mem_base32Chars_of_range {c : Char}
    (h : (65 ≤ c.toNat ∧ c.toNat ≤ 90) ∨ (50 ≤ c.toNat ∧ c.toNat ≤ 55)) :
    c ∈ base32Chars := by
  have hc : Char.ofNat c.toNat = c := Char.ofNat_toNat c
  rcases h with ⟨h1, h2⟩ | ⟨h1, h2⟩ <;>
  · rw [← hc]
    interval_cases h3 : c.toNat <;> decide

/-- A character accepted by the validation class is an uppercase letter,
a digit `2`-`7`, or the padding `=`. -/
lemma isB32Valid_cases {c : Char} (h : isB32Valid c = true) :
    (65 ≤ c.toNat ∧ c.toNat ≤ 90) ∨ (50 ≤ c.toNat ∧ c.toNat ≤ 55) ∨ c = '=' := by
  simp only [isB32Valid, Bool.or_eq_true, Bool.and_eq_true, decide_eq_true_iff] at h
  rcases h with (⟨h1, h2⟩ | ⟨h1, h2⟩) | h
  · exact Or.inl ⟨char_le_iff.mp h1, char_le_iff.mp h2⟩
  · exact Or.inr (Or.inl ⟨char_le_iff.mp h1, char_le_iff.mp h2⟩)
  · exact Or.inr (Or.inr h)

/-- Uppercasing fixes characters that are already uppercase letters or digits. -/
lemma jsToUpper_eq_self_of_range {c : Char}
    (h : (65 ≤ c.toNat ∧ c.toNat ≤ 90) ∨ (50 ≤ c.toNat ∧ c.toNat ≤ 55)) :
    jsToUpper c = c := by
  unfold jsToUpper
  rw [if_neg]
  rintro ⟨ha, _⟩
  have h1 := char_le_iff.mp ha
  have e : ('a').toNat = 97 := rfl
  rw [e] at h1
  omega

/-- Alphabet members have an index. -/
lemma base32Index_isSome_of_mem {c : Char} (h : c ∈ base32Chars) :
    (base32Index c).isSome = true := by
  unfold base32Index
  have hlt := List.indexOf_lt_length.mpr h
  simp only []
  rw [if_neg (by omega)]
  rfl

/-- The index lookup fails exactly on characters outside the alphabet. -/
lemma base32Index_eq_none_iff {c : Char} :
    base32Index c = none ↔ c ∉ base32Chars := by
  unfold base32Index
  constructor
  · intro h hm
    have hlt := List.indexOf_lt_length.mpr hm
    rw [if_neg (by omega)] at h
    exact Option.noConfusion h
  · intro hm
    rw [if_pos (List.indexOf_eq_length.mpr hm)]

/-- Mapping an option-valued function succeeds when it succeeds pointwise. -/
lemma option_mapM_isSome {α β : Type} (f : α → Option β) :
    ∀ l : List α, (∀ a ∈ l, (f a).isSome = true) → (l.mapM f).isSome = true := by
  intro l
  induction l with
  | nil => intro _; rfl
  | cons a l ih =>
    intro h
    have ha : (f a).isSome = true := h a (List.mem_cons_self a l)
    obtain ⟨b, hb⟩ := Option.isSome_iff_exists.mp ha
    have hl := ih (fun x hx => h x (List.mem_cons_of_mem a hx))
    obtain ⟨bs, hbs⟩ := Option.isSome_iff_exists.mp hl
    rw [List.mapM_cons]
    have hbs2 : List.mapM.loop f l [] = some bs := hbs
    simp [hb, hbs2]

/-- Mapping an option-valued function fails exactly when some element fails. -/
lemma option_mapM_eq_none_iff {α β : Type} (f : α → Option β) :
    ∀ l : List α, l.mapM f = none ↔ ∃ a ∈ l, f a = none := by
  intro l
  induction l with
  | nil =>
    have h0 : List.mapM.loop f [] [] = some ([] : List β) := rfl
    simp [h0]
  | cons a l ih =>
    rw [List.mapM_cons]
    constructor
    · intro h
      cases hfa : f a with
      | none => exact ⟨a, List.mem_cons_self a l, hfa⟩
      | some b =>
        cases hl : l.mapM f with
        | none =>
          obtain ⟨x, hx, hfx⟩ := ih.mp hl
          exact ⟨x, List.mem_cons_of_mem a hx, hfx⟩
        | some bs =>
          have hl2 : List.mapM.loop f l [] = some bs := hl
          rw [hfa] at h
          simp [hl2] at h
    · rintro ⟨x, hx, hfx⟩
      rcases List.mem_cons.mp hx with rfl | hx
      · simp [hfx]
      · have hn : l.mapM f = none := ih.mpr ⟨x, hx, hfx⟩
        have hl2 : List.mapM.loop f l [] = none := hn
        cases hfa : f a <;> simp [hfa, hl2]

/-- A successful `mapM` preserves length. -/
lemma option_mapM_length {α β : Type} (f : α → Option β) :
    ∀ (l : List α) (bs : List β), l.mapM f = some bs → bs.length = l.length := by
  intro l
  induction l with
  | nil =>
    intro bs h
    have h2 : some ([] : List β) = some bs := h
    cases h2
    rfl
  | cons a l ih =>
    intro bs h
    rw [List.mapM_cons] at h
    cases hfa : f a with
    | none => rw [hfa] at h; simp at h
    | some b =>
      rw [hfa] at h
      cases hl : l.mapM f with
      | none =>
        have hl2 : List.mapM.loop f l [] = none := hl
        simp [hl2] at h
      | some cs =>
        have hl2 : List.mapM.loop f l [] = some cs := hl
        simp [hl2] at h
        rw [← h]
        simp [ih cs hl]

/-- Slicing bits into full bytes yields one byte per 8 bits, dropping the rest. -/
lemma bitsToBytes_length : ∀ bits : List Nat, (bitsToBytes bits).length = bits.length / 8 := by
  intro bits
  induction bits using bitsToBytes.induct with
  | case1 b0 b1 b2 b3 b4 b5 b6 b7 rest ih =>
    rw [bitsToBytes]
    simp only [List.length_cons, ih]
    omega
  | case2 t h =>
    rcases t with _ | ⟨b0, t⟩
    · rfl
    rcases t with _ | ⟨b1, t⟩
    · rw [bitsToBytes]
      · simp
      · exact h
    rcases t with _ | ⟨b2, t⟩
    · rw [bitsToBytes]
      · simp
      · exact h
    rcases t with _ | ⟨b3, t⟩
    · rw [bitsToBytes]
      · simp
      · exact h
    rcases t with _ | ⟨b4, t⟩
    · rw [bitsToBytes]
      · simp
      · exact h
    rcases t with _ | ⟨b5, t⟩
    · rw [bitsToBytes]
      · simp
      · exact h
    rcases t with _ | ⟨b6, t⟩
    · rw [bitsToBytes]
      · simp
      · exact h
    rcases t with _ | ⟨b7, t⟩
    · rw [bitsToBytes]
      · simp
      · exact h
    exact (h b0 b1 b2 b3 b4 b5 b6 b7 t rfl).elim

/-- Each index contributes exactly five bits. -/
lemma toBits5_length (n : Nat) : (toBits5 n).length = 5 := rfl

/-- Concatenating the 5-bit groups of a list of indices. -/
lemma flatMap_toBits5_length (l : List Nat) : (l.flatMap toBits5).length = 5 * l.length := by
  induction l with
  | nil => rfl
  | cons a l ih =>
    simp [List.flatMap_cons, toBits5_length, ih]
    ring

/-- Decimal digit characters lie between `0` and `9`. -/
lemma digitChar_is_digit {m : Nat} (h : m < 10) :
    ('0' ≤ digitChar m ∧ digitChar m ≤ '9') := by
  interval_cases m <;> exact ⟨by decide, by decide⟩

/-- Every character of a decimal representation is a digit. -/
lemma natToDecimalGo_digits :
    ∀ (fuel n : Nat), n < fuel → ∀ c ∈ natToDecimalGo fuel n, ('0' ≤ c ∧ c ≤ '9') := by
  intro fuel
  induction fuel with
  | zero => intro n h; omega
  | succ fuel ih =>
    intro n h c hc
    rw [natToDecimalGo] at hc
    split at hc
    · rcases List.mem_singleton.mp hc with rfl
      exact digitChar_is_digit (by omega)
    · rcases List.mem_append.mp hc with hc1 | hc2
      · exact ih (n / 10) (by omega) c hc1
      · rcases List.mem_singleton.mp hc2 with rfl
        exact digitChar_is_digit (Nat.mod_lt _ (by omega))

/-- A number below `10^k` has at most `k` decimal digits. -/
lemma natToDecimalGo_length :
    ∀ (k fuel n : Nat), n < fuel → n < 10 ^ k → 1 ≤ k →
      (natToDecimalGo fuel n).length ≤ k := by
  intro k
  induction k with
  | zero => intro _ _ _ _ hk; omega
  | succ k ih =>
    intro fuel n hfuel hn _
    cases fuel with
    | zero => omega
    | succ fuel =>
      rw [natToDecimalGo]
      split
      · simp
      · rename_i h10
        have hk1 : 1 ≤ k := by
          by_contra hk0
          have : k = 0 := by omega
          subst this
          simp at hn
          omega
        have hdiv : n / 10 < 10 ^ k := by
          rw [Nat.div_lt_iff_lt_mul (by omega)]
          calc n < 10 ^ (k + 1) := hn
          _ = 10 ^ k * 10 := by ring
        have := ih fuel (n / 10) (by omega) hdiv hk1
        simp [List.length_append]
        omega

/-- Digit property for the final representation. -/
lemma natToDecimal_digits (n : Nat) : ∀ c ∈ natToDecimal n, ('0' ≤ c ∧ c ≤ '9') :=
  natToDecimalGo_digits (n + 1) n (Nat.lt_succ_self n)

/-- Length bound for the final representation. -/
lemma natToDecimal_length_le {n k : Nat} (hn : n < 10 ^ k) (hk : 1 ≤ k) :
    (natToDecimal n).length ≤ k :=
  natToDecimalGo_length k (n + 1) n (Nat.lt_succ_self n) hn hk

/-- Zero-padding a digit string of at most six characters to width six yields
a valid six-digit code. -/
lemma isSixDigitCode_padStartZero {s : List Char} (hlen : s.length ≤ 6)
    (hd : ∀ c ∈ s, ('0' ≤ c ∧ c ≤ '9')) :
    isSixDigitCode (padStartZero s 6) = true := by
  unfold isSixDigitCode padStartZero
  rw [Bool.and_eq_true]
  constructor
  · simp [List.length_append, List.length_replicate]
    omega
  · rw [List.all_eq_true]
    intro c hc
    rcases List.mem_append.mp hc with h1 | h2
    · have : c = '0' := List.eq_of_mem_replicate h1
      subst this
      decide
    · have := hd c h2
      simp [decide_eq_true_iff]
      exact this

end ZKSAuth

namespace ZKSAuth

set_option maxRecDepth 1000000

/-! Claim theorems. -/

/-- C7: the SHA-1 engine applied to the empty byte sequence returns the
20-byte digest `da39a3ee5e6b4b0d3255bfef95601890afd80709`, the RFC test
vector for the hash of the empty message.  (The empty message is the one
input on which the source's malformed length field coincides with the
correct one, since the bit length is zero.) -/
theorem sha1Simple_empty_rfc_vector :
    sha1Simple [] = [0xda, 0x39, 0xa3, 0xee, 0x5e, 0x6b, 0x4b, 0x0d, 0x32, 0x55,
                     0xbf, 0xef, 0x95, 0x60, 0x18, 0x90, 0xaf, 0xd8, 0x07, 0x09] := by
  decide

/-- C2: evaluation at the failing input `[0xAB]` (one byte, bit length 8).
The claim says the appended 64-bit big-endian length has zero high 32 bits;
the source instead writes the 32-bit bit length twice because JavaScript
reduces shift counts modulo 32, so the final eight bytes are
`[0,0,0,8,0,0,0,8]` where RFC 3174 (and the reference `sha1PaddedRef`)
requires `[0,0,0,0,0,0,0,8]`.  The `0x80` byte and the zero padding to
56 mod 64 are as claimed. -/
theorem sha1Padded_length_field_duplicated :
    sha1Padded [0xAB] = [0xAB, 0x80] ++ List.replicate 54 0 ++ [0, 0, 0, 8, 0, 0, 0, 8] ∧
    sha1PaddedRef [0xAB] = [0xAB, 0x80] ++ List.replicate 54 0 ++ [0, 0, 0, 0, 0, 0, 0, 8] ∧
    sha1Padded [0xAB] ≠ sha1PaddedRef [0xAB] := by
  refine ⟨by decide, by decide, by decide⟩

/-- C4: evaluation at the failing input of an empty key and empty message.
The from-scratch fallback HMAC-SHA1 disagrees with the RFC 2104 reference
(`hmacSha1Ref [] []` is the published HMAC-SHA1 value
`fbdb1d1b18aa6c08324b7d64b71fb76370690e1d` for empty key and message),
because every nonempty SHA-1 input gets the malformed length field. -/
theorem hmacSha1Simple_differs_from_reference :
    hmacSha1Simple [] [] = [224, 101, 133, 186, 229, 133, 70, 217, 11, 44,
                            123, 146, 14, 153, 53, 114, 98, 237, 109, 12] ∧
    hmacSha1Ref [] [] = [251, 219, 29, 27, 24, 170, 108, 8, 50, 75,
                         125, 100, 183, 31, 183, 99, 112, 105, 14, 29] ∧
    hmacSha1Simple [] [] ≠ hmacSha1Ref [] [] := by
  have h1 : hmacSha1Simple [] [] = [224, 101, 133, 186, 229, 133, 70, 217, 11, 44,
      123, 146, 14, 153, 53, 114, 98, 237, 109, 12] := by decide
  have h2 : hmacSha1Ref [] [] = [251, 219, 29, 27, 24, 170, 108, 8, 50, 75,
      125, 100, 183, 31, 183, 99, 112, 105, 14, 29] := by decide
  refine ⟨h1, h2, ?_⟩
  rw [h1, h2]
  decide

/-- C1: evaluation at the known-answer point.  For the secret
`JBSWY3DPEHPK3PXP` at timestamp 59 (counter 1) the source's `generate`,
running on its from-scratch engine, returns `864780`, while the RFC 6238
reference pipeline (`generateRef`, differing only in using the RFC-correct
SHA-1 length field) returns `996554`: the known-answer test fails. -/
theorem generate_known_answer_mismatch :
    generate "JBSWY3DPEHPK3PXP".toList 59 = "864780".toList ∧
    generateRef "JBSWY3DPEHPK3PXP".toList 59 = "996554".toList ∧
    generate "JBSWY3DPEHPK3PXP".toList 59 ≠ generateRef "JBSWY3DPEHPK3PXP".toList 59 := by
  have h1 : generate "JBSWY3DPEHPK3PXP".toList 59 = "864780".toList := by decide
  have h2 : generateRef "JBSWY3DPEHPK3PXP".toList 59 = "996554".toList := by decide
  refine ⟨h1, h2, ?_⟩
  rw [h1, h2]
  decide

/-- C3 counterexample: on secrets whose normalized form fails Base32
decoding, `generate` does not propagate the decoder's error: the source's
`try/catch` swallows it and resolves normally with the same fixed placeholder
string `ERROR` for every failing secret. -/
theorem generate_returns_fixed_error_string :
    generate "8ABCDEFGHIJKLMNO".toList 0 = "ERROR".toList ∧
    generate "!!!!".toList 59 = "ERROR".toList ∧
    isSixDigitCode "ERROR".toList = false := by
  decide

/-- C3 amended: for every secret whose normalized form fails Base32
decoding, `generate` returns the fixed sentinel string `ERROR`, which is not
a six-digit code and is therefore distinguishable from every valid rotation;
it never returns a placeholder digit string. -/
theorem generate_error_sentinel (s : List Char) (t : Nat)
    (h : base32Decode (cleanSecret s) = none) :
    generate s t = "ERROR".toList ∧ isSixDigitCode (generate s t) = false := by
  have hg : generate s t = "ERROR".toList := by
    unfold generate
    rw [h]
  exact ⟨hg, by rw [hg]; decide⟩

/-- C3 witness: the amended statement at the concrete failing secret
`9ABCDEFGHIJKLMNO` and timestamp 59. -/
theorem generate_error_sentinel_witness :
    generate "9ABCDEFGHIJKLMNO".toList 59 = "ERROR".toList ∧
    isSixDigitCode (generate "9ABCDEFGHIJKLMNO".toList 59) = false :=
  generate_error_sentinel _ 59 (by decide)

/-- C5: for every secret accepted by `validateSecret` and every timestamp,
`generate` returns exactly six ASCII decimal digits: the truncated value is
reduced modulo 10^6 and zero-padded to width six. -/
theorem generate_six_digits (s : List Char) (t : Nat) (h : validateSecret s = true) :
    isSixDigitCode (generate s t) = true := by
  have hall : ∀ c ∈ cleanSecret s, isB32Valid c = true := by
    unfold validateSecret at h
    simp only [Bool.and_eq_true, List.all_eq_true] at h
    exact h.1.2
  have hsome : (base32Decode (cleanSecret s)).isSome = true := by
    unfold base32Decode
    rw [Option.isSome_map']
    apply option_mapM_isSome
    intro c hc
    obtain ⟨c0, hc0, rfl⟩ := List.mem_map.mp hc
    have hc0m := List.mem_filter.mp hc0
    have hv := hall c0 hc0m.1
    have hne : c0 ≠ '=' := by simpa using hc0m.2
    rcases isB32Valid_cases hv with hr | hr | he
    · rw [jsToUpper_eq_self_of_range (Or.inl hr)]
      exact base32Index_isSome_of_mem (mem_base32Chars_of_range (Or.inl hr))
    · rw [jsToUpper_eq_self_of_range (Or.inr hr)]
      exact base32Index_isSome_of_mem (mem_base32Chars_of_range (Or.inr hr))
    · exact absurd he hne
  obtain ⟨key, hkey⟩ := Option.isSome_iff_exists.mp hsome
  have hlt : dynamicTruncate (hmacSha1Simple key (intToBytes (t / timeStep))) < 10 ^ 6 := by
    unfold dynamicTruncate
    exact Nat.mod_lt _ (by norm_num)
  unfold generate
  rw [hkey]
  apply isSixDigitCode_padStartZero
  · exact natToDecimal_length_le hlt (by norm_num)
  · exact natToDecimal_digits _

/-- C5 witness: the six-digit property at the concrete validated secret
`JBSWY3DPEHPK3PXP` and timestamp 59. -/
theorem generate_six_digits_witness :
    validateSecret "JBSWY3DPEHPK3PXP".toList = true ∧
    isSixDigitCode (generate "JBSWY3DPEHPK3PXP".toList 59) = true :=
  ⟨by decide, generate_six_digits _ 59 (by decide)⟩

/-- C6 counterexample: the source's `getRemainingSeconds` is declared with
no parameter and reads the clock, so a call that passes an explicit timestamp
argument has it ignored: called with `t = 29` (where the claim requires the
result 1) at clock time 0, it returns 30. -/
theorem getRemainingSecondsCalled_ignores_argument :
    getRemainingSecondsCalled 0 29 = 30 ∧ getRemainingSecondsCalled 0 29 ≠ 1 := by
  decide

/-- C6 amended: `getRemainingSeconds` takes no timestamp argument; as a
function of the clock reading `now` it returns `30 - now % 30`, an integer in
`[1, 30]`, equal to 30 when `now % 30 = 0` and to 1 when `now % 30 = 29`. -/
theorem getRemainingSeconds_formula (now : Nat) :
    getRemainingSeconds now = 30 - now % 30 ∧
    1 ≤ getRemainingSeconds now ∧ getRemainingSeconds now ≤ 30 ∧
    (now % 30 = 0 → getRemainingSeconds now = 30) ∧
    (now % 30 = 29 → getRemainingSeconds now = 1) := by
  unfold getRemainingSeconds timeStep
  omega

/-- C6 witness: the endpoint cases at clock readings 0 and 29. -/
theorem getRemainingSeconds_formula_witness :
    getRemainingSeconds 0 = 30 ∧ getRemainingSeconds 29 = 1 :=
  ⟨(getRemainingSeconds_formula 0).2.2.2.1 (by decide),
   (getRemainingSeconds_formula 29).2.2.2.2 (by decide)⟩

/-- C8 counterexample: `base32Decode` uppercases after stripping `=`, so the
input `aa`, both of whose remaining characters are outside the Base32
alphabet `A`-`Z2`-`7`, nevertheless decodes successfully (to the single byte
0) instead of failing as the claim requires. -/
theorem base32Decode_uppercases_before_alphabet_check :
    base32Decode ['a', 'a'] = some [0] ∧ 'a' ∉ base32Chars := by
  decide

/-- C8 amended: `base32Decode` strips all `=` characters (which never cause
failure) and uppercases; it fails exactly when some remaining character is,
after uppercasing, outside the Base32 alphabet, and on success returns
`floor(5n/8)` bytes for `n` remaining characters, the full 8-bit slices of
the concatenated 5-bit indices. -/
theorem base32Decode_spec (l : List Char) :
    (base32Decode l = none ↔
      ∃ c ∈ (l.filter (fun c => c ≠ '=')).map jsToUpper, c ∉ base32Chars) ∧
    ∀ bs, base32Decode l = some bs →
      bs.length = 5 * ((l.filter (fun c => c ≠ '=')).map jsToUpper).length / 8 := by
  constructor
  · unfold base32Decode
    rw [Option.map_eq_none', option_mapM_eq_none_iff]
    constructor
    · rintro ⟨c, hc, hnone⟩
      exact ⟨c, hc, base32Index_eq_none_iff.mp hnone⟩
    · rintro ⟨c, hc, hmem⟩
      exact ⟨c, hc, base32Index_eq_none_iff.mpr hmem⟩
  · intro bs hbs
    unfold base32Decode at hbs
    obtain ⟨idxs, hidxs, hmap⟩ := Option.map_eq_some'.mp hbs
    rw [← hmap, bitsToBytes_length, flatMap_toBits5_length,
        option_mapM_length _ _ idxs hidxs]

/-- C8 witness: the length formula applied to the concrete input `AA==`,
whose decode succeeds with one byte (`floor(5 times 2 / 8) = 1`). -/
theorem base32Decode_spec_witness :
    ([0] : List Nat).length =
      5 * (("AA==".toList.filter (fun c => c ≠ '=')).map jsToUpper).length / 8 :=
  (base32Decode_spec "AA==".toList).2 [0] (by decide)

/-- C9: `validateSecret` is total (the embedding is a total Lean function,
matching the source's catch-all) and returns true exactly when the
normalized secret is non-empty, consists only of characters in the class
`A`-`Z2`-`7=`, and has length at least 16. -/
theorem validateSecret_spec (s : List Char) :
    validateSecret s = true ↔
      (cleanSecret s ≠ [] ∧ (∀ c ∈ cleanSecret s, isB32Valid c = true) ∧
       16 ≤ (cleanSecret s).length) := by
  unfold validateSecret
  simp only [Bool.and_eq_true, List.all_eq_true, decide_eq_true_iff,
             Bool.not_eq_true', List.isEmpty_eq_false]
  tauto

/-- C9 witness: the spec test property that the lowercase 16-character
secret `abcdefghijklmnop` validates (it is uppercased by normalization). -/
theorem validateSecret_spec_witness :
    validateSecret "abcdefghijklmnop".toList = true :=
  (validateSecret_spec _).mpr (by decide)

/-- C10: for every 20-byte digest, the dynamic-truncation offset
`digest[19] & 0x0F` lies in `[0, 15]`, all four byte reads are at indices at
most 18 and hence in bounds, and the truncated value is below 10^6 (the
embedding is total, as is the source for in-bounds reads). -/
theorem dynamicTruncate_offset_in_bounds (d : List Nat) (h : d.length = 20) :
    d.getD 19 0 &&& 0x0F ≤ 15 ∧ (d.getD 19 0 &&& 0x0F) + 3 < d.length ∧
    dynamicTruncate d < 10 ^ codeDigits := by
  have h15 : d.getD 19 0 &&& 0x0F ≤ 15 := Nat.and_le_right
  refine ⟨h15, by omega, ?_⟩
  unfold dynamicTruncate
  exact Nat.mod_lt _ (Nat.pow_pos (by norm_num))

/-- C10 witness: the bounds at the concrete digest `[0, 1, ..., 19]`. -/
theorem dynamicTruncate_offset_in_bounds_witness :
    (List.range 20).getD 19 0 &&& 0x0F ≤ 15 ∧
    ((List.range 20).getD 19 0 &&& 0x0F) + 3 < (List.range 20).length ∧
    dynamicTruncate (List.range 20) < 10 ^ codeDigits :=
  dynamicTruncate_offset_in_bounds _ (by decide)

end ZKSAuth
